import Mathlib

/-!
Verification development for the snoop dependency-audit tool.

The Go sources are shallowly embedded: pure functions become Lean
functions, external effects (process invocation, HTTP queries, file I/O)
become explicit parameters, and machine integers become `Nat`/`Int`
(all the embedded quantities are small counters and string lengths, so
no overflow reasoning is required).
-/

set_option maxHeartbeats 1000000

namespace Snoop

/-! ## Vulnerability summaries (audit/audit.go)

`VulnerabilitySummary` mirrors the Go struct: five severity buckets and a
running total, all non-negative counters. -/

structure VulnerabilitySummary where
  info : Nat
  low : Nat
  moderate : Nat
  high : Nat
  critical : Nat
  total : Nat
deriving DecidableEq, Repr

def zeroSummary : VulnerabilitySummary := ⟨0, 0, 0, 0, 0, 0⟩

/-- The invariant claimed by the spec: the total equals the sum of the
five severity buckets. -/
def summaryInv (s : VulnerabilitySummary) : Prop :=
  s.total = s.critical + s.high + s.moderate + s.low + s.info

instance (s : VulnerabilitySummary) : Decidable (summaryInv s) := by
  unfold summaryInv; infer_instance

/-! ## npm audit backend (audit/audit.go, RunAudit)

The external `npm audit --json` invocation is embedded as an explicit
outcome value: the process either succeeds, exits non-zero but still
yields stdout (Go `exec.ExitError`), hits the context deadline, or fails
to run at all.  JSON decoding of stdout is a parameter (`parseJson`),
standing for `json.Unmarshal` into `NpmAuditResponse`. -/

structure NpmVulnerability where
  name : String
  severity : String
  isDirect : Bool
deriving DecidableEq, Repr

structure DependencyMetadata where
  prod : Nat
  dev : Nat
  optional : Nat
  peer : Nat
  peerOptional : Nat
  total : Nat
deriving DecidableEq, Repr

structure AuditMetadata where
  vulnerabilities : VulnerabilitySummary
  dependencies : DependencyMetadata
deriving DecidableEq, Repr

structure NpmAuditResponse where
  auditReportVersion : Nat
  vulnerabilities : List (String × NpmVulnerability)
  metadata : AuditMetadata
deriving DecidableEq, Repr

/-- Outcome of running the external `npm audit` command, as distinguished
by `RunAudit`: `ctx.Err() == context.DeadlineExceeded` is `timedOut`,
an `exec.ExitError` (non-zero exit with captured stdout) is `exitError`,
and any other invocation error is `execFailure`. -/
inductive ExecOutcome where
  | success (stdout : String)
  | exitError (code : Int) (stdout : String)
  | timedOut
  | execFailure (msg : String)
deriving DecidableEq, Repr

inductive AuditError where
  | timeoutError
  | invocationFailure (msg : String)
  | parseFailure
deriving DecidableEq, Repr

structure AuditResult where
  response : Option NpmAuditResponse
  vulnerabilities : List NpmVulnerability
  summary : VulnerabilitySummary
  rawOutput : String
  error : Option AuditError
deriving DecidableEq, Repr

/-- Embedding of `Runner.RunAudit`: a timeout and a genuine invocation
failure set the error and return at once; both a clean exit and a
non-zero exit (`exec.ExitError`) fall through to parsing stdout.  A JSON
decode failure sets the error after the parse attempt; on success the
summary is copied verbatim from the tool's reported metadata. -/
def runAudit (parseJson : String → Option NpmAuditResponse)
    (outcome : ExecOutcome) : AuditResult :=
  match outcome with
  | .timedOut =>
      { response := none, vulnerabilities := [], summary := zeroSummary,
        rawOutput := "", error := some .timeoutError }
  | .execFailure msg =>
      { response := none, vulnerabilities := [], summary := zeroSummary,
        rawOutput := "", error := some (.invocationFailure msg) }
  | .success out =>
      match parseJson out with
      | none =>
          { response := none, vulnerabilities := [], summary := zeroSummary,
            rawOutput := out, error := some .parseFailure }
      | some resp =>
          { response := some resp,
            vulnerabilities := resp.vulnerabilities.map (fun nv => { nv.2 with name := nv.1 }),
            summary := resp.metadata.vulnerabilities,
            rawOutput := out, error := none }
  | .exitError _ out =>
      match parseJson out with
      | none =>
          { response := none, vulnerabilities := [], summary := zeroSummary,
            rawOutput := out, error := some .parseFailure }
      | some resp =>
          { response := some resp,
            vulnerabilities := resp.vulnerabilities.map (fun nv => { nv.2 with name := nv.1 }),
            summary := resp.metadata.vulnerabilities,
            rawOutput := out, error := none }

/-! ## OSV client (osv/osv.go) -/

structure OsvEvent where
  introduced : String
  fixed : String
  lastAffected : String
deriving DecidableEq, Repr

structure OsvVersionRange where
  type : String
  events : List OsvEvent
deriving DecidableEq, Repr

structure OsvAffected where
  ranges : List OsvVersionRange
  versions : List String
deriving DecidableEq, Repr

structure OsvVulnerability where
  id : String
  summary : String
  details : String
  aliases : List String
  affected : List OsvAffected
deriving DecidableEq, Repr

structure OsvQueryResponse where
  vulns : List OsvVulnerability
deriving DecidableEq, Repr

inductive OsvEcosystem where
  | pypi
  | goEco
  | npmEco
  | maven
deriving DecidableEq, Repr

structure OsvPackage where
  name : String
  version : String
  ecosystem : OsvEcosystem
deriving DecidableEq, Repr

def getSeverityLevelLoop : List String → String
  | [] => "high"
  | a :: rest => if a.length > 0 then "high" else getSeverityLevelLoop rest

/-- Embedding of `Vulnerability.GetSeverityLevel`: scan the aliases and
return "high" on the first non-empty one, falling back to "high" when
none qualifies. -/
def getSeverityLevel (v : OsvVulnerability) : String :=
  getSeverityLevelLoop v.aliases

def extractFixLoop (seen : List String) : List String → List String
  | [] => []
  | f :: rest =>
      if f ≠ "" ∧ ¬ seen.contains f then f :: extractFixLoop (f :: seen) rest
      else extractFixLoop seen rest

/-- Embedding of `extractFixVersions`: collect the `fixed` fields of all
range events, keeping first occurrences only. -/
def extractFixVersions (v : OsvVulnerability) : List String :=
  extractFixLoop []
    (v.affected.flatMap (fun a => a.ranges.flatMap (fun r => r.events.map (·.fixed))))

/-! ## OSV-backed audits (audit/python.go, audit/go.go, audit/maven.go)

The HTTP query is a parameter `query : OsvPackage → Option OsvQueryResponse`;
`none` stands for `QueryPackage` returning an error (non-2xx status or
network failure).  The three per-ecosystem loops are structurally
identical; each is embedded separately below, sharing the severity
switch `updateSummary`. -/

/-- Embedding of the severity switch that each OSV audit loop runs for
every vulnerability: exactly one bucket and the total are incremented;
an unrecognized severity (including "info") defaults to the high
bucket. -/
def updateSummary (s : VulnerabilitySummary) (sev : String) : VulnerabilitySummary :=
  if sev = "critical" then { s with critical := s.critical + 1, total := s.total + 1 }
  else if sev = "high" then { s with high := s.high + 1, total := s.total + 1 }
  else if sev = "moderate" ∨ sev = "medium" then { s with moderate := s.moderate + 1, total := s.total + 1 }
  else if sev = "low" then { s with low := s.low + 1, total := s.total + 1 }
  else { s with high := s.high + 1, total := s.total + 1 }

structure PythonPackage where
  name : String
  version : String
  line : Nat
deriving DecidableEq, Repr

structure PythonVulnerability where
  name : String
  version : String
  id : String
  fixVersions : List String
  description : String
  aliases : List String
  severity : String
deriving DecidableEq, Repr

structure PythonAuditResult where
  manifestPath : String
  manifestType : String
  vulnerabilities : List PythonVulnerability
  summary : VulnerabilitySummary
  packagesScanned : Nat
  error : Option String
deriving DecidableEq, Repr

def pythonAddVuln (pkg : PythonPackage)
    (st : List PythonVulnerability × VulnerabilitySummary)
    (v : OsvVulnerability) : List PythonVulnerability × VulnerabilitySummary :=
  let pv : PythonVulnerability :=
    { name := pkg.name, version := pkg.version, id := v.id,
      fixVersions := extractFixVersions v, description := v.summary,
      aliases := v.aliases, severity := getSeverityLevel v }
  (st.1 ++ [pv], updateSummary st.2 pv.severity)

def pythonProcessPackage (query : OsvPackage → Option OsvQueryResponse)
    (st : List PythonVulnerability × VulnerabilitySummary)
    (pkg : PythonPackage) : List PythonVulnerability × VulnerabilitySummary :=
  match query { name := pkg.name, version := pkg.version, ecosystem := .pypi } with
  | none => st
  | some resp => resp.vulns.foldl (pythonAddVuln pkg) st

/-- Embedding of the per-package loop of `Runner.RunPythonAudit`, after
the manifest has been parsed into `pkgs`: each package is queried in
order, a failed query only skips that package, and every returned
vulnerability is appended and counted.  The error field is never set on
this path. -/
def runPythonAudit (query : OsvPackage → Option OsvQueryResponse)
    (manifestPath manifestType : String)
    (pkgs : List PythonPackage) : PythonAuditResult :=
  let st := pkgs.foldl (pythonProcessPackage query) ([], zeroSummary)
  { manifestPath := manifestPath, manifestType := manifestType,
    vulnerabilities := st.1, summary := st.2,
    packagesScanned := pkgs.length, error := none }

structure GoModule where
  path : String
  version : String
  line : Nat
deriving DecidableEq, Repr

structure GoVulnerability where
  module : String
  version : String
  id : String
  fixVersions : List String
  description : String
  aliases : List String
  severity : String
deriving DecidableEq, Repr

structure GoAuditResult where
  manifestPath : String
  manifestType : String
  vulnerabilities : List GoVulnerability
  summary : VulnerabilitySummary
  modulesScanned : Nat
  error : Option String
deriving DecidableEq, Repr

def goAddVuln (m : GoModule)
    (st : List GoVulnerability × VulnerabilitySummary)
    (v : OsvVulnerability) : List GoVulnerability × VulnerabilitySummary :=
  let gv : GoVulnerability :=
    { module := m.path, version := m.version, id := v.id,
      fixVersions := extractFixVersions v, description := v.summary,
      aliases := v.aliases, severity := getSeverityLevel v }
  (st.1 ++ [gv], updateSummary st.2 gv.severity)

def goProcessModule (query : OsvPackage → Option OsvQueryResponse)
    (st : List GoVulnerability × VulnerabilitySummary)
    (m : GoModule) : List GoVulnerability × VulnerabilitySummary :=
  match query { name := m.path, version := m.version, ecosystem := .goEco } with
  | none => st
  | some resp => resp.vulns.foldl (goAddVuln m) st

/-- Embedding of the per-module loop of `Runner.RunGoAudit` after parsing
go.mod into `mods`; structurally identical to the Python loop. -/
def runGoAudit (query : OsvPackage → Option OsvQueryResponse)
    (manifestPath manifestType : String)
    (mods : List GoModule) : GoAuditResult :=
  let st := mods.foldl (goProcessModule query) ([], zeroSummary)
  { manifestPath := manifestPath, manifestType := manifestType,
    vulnerabilities := st.1, summary := st.2,
    modulesScanned := mods.length, error := none }

structure MavenDependency where
  groupId : String
  artifactId : String
  version : String
  scope : String
deriving DecidableEq, Repr

structure MavenVulnerability where
  groupId : String
  artifactId : String
  version : String
  id : String
  fixVersions : List String
  description : String
  aliases : List String
  severity : String
deriving DecidableEq, Repr

structure MavenAuditResult where
  manifestPath : String
  manifestType : String
  vulnerabilities : List MavenVulnerability
  summary : VulnerabilitySummary
  packagesScanned : Nat
  error : Option String
deriving DecidableEq, Repr

def mavenPackageName (d : MavenDependency) : String :=
  d.groupId ++ ":" ++ d.artifactId

def mavenAddVuln (d : MavenDependency)
    (st : List MavenVulnerability × VulnerabilitySummary)
    (v : OsvVulnerability) : List MavenVulnerability × VulnerabilitySummary :=
  let mv : MavenVulnerability :=
    { groupId := d.groupId, artifactId := d.artifactId, version := d.version,
      id := v.id, fixVersions := extractFixVersions v, description := v.summary,
      aliases := v.aliases, severity := getSeverityLevel v }
  (st.1 ++ [mv], updateSummary st.2 mv.severity)

def mavenProcessDep (query : OsvPackage → Option OsvQueryResponse)
    (st : List MavenVulnerability × VulnerabilitySummary)
    (d : MavenDependency) : List MavenVulnerability × VulnerabilitySummary :=
  match query { name := mavenPackageName d, version := d.version, ecosystem := .maven } with
  | none => st
  | some resp => resp.vulns.foldl (mavenAddVuln d) st

/-- Embedding of the per-dependency loop of `Runner.RunMavenAudit` after
parsing pom.xml into `deps`; structurally identical to the Python loop. -/
def runMavenAudit (query : OsvPackage → Option OsvQueryResponse)
    (manifestPath manifestType : String)
    (deps : List MavenDependency) : MavenAuditResult :=
  let st := deps.foldl (mavenProcessDep query) ([], zeroSummary)
  { manifestPath := manifestPath, manifestType := manifestType,
    vulnerabilities := st.1, summary := st.2,
    packagesScanned := deps.length, error := none }

/-! ## Aggregate summary (formatter/formatter.go, JSONFormatter.Format)

The JSON formatter sums the per-manifest summaries field-wise into one
aggregate `VulnerabilitySummary`. -/

def addSummary (a b : VulnerabilitySummary) : VulnerabilitySummary :=
  { info := a.info + b.info, low := a.low + b.low,
    moderate := a.moderate + b.moderate, high := a.high + b.high,
    critical := a.critical + b.critical, total := a.total + b.total }

def aggregateSummary (ss : List VulnerabilitySummary) : VulnerabilitySummary :=
  ss.foldl addSummary zeroSummary

/-! ## Basic lemmas about the severity bookkeeping -/

theorem getSeverityLevelLoop_eq_high : ∀ l, getSeverityLevelLoop l = "high"
  | [] => rfl
  | a :: rest => by
      unfold getSeverityLevelLoop
      split
      · rfl
      · exact getSeverityLevelLoop_eq_high rest

theorem getSeverityLevel_eq_high (v : OsvVulnerability) : getSeverityLevel v = "high" :=
  getSeverityLevelLoop_eq_high v.aliases

theorem updateSummary_inv (s : VulnerabilitySummary) (sev : String)
    (h : summaryInv s) : summaryInv (updateSummary s sev) := by
  unfold summaryInv at *
  unfold updateSummary
  split
  · simp; omega
  · split
    · simp; omega
    · split
      · simp; omega
      · split
        · simp; omega
        · simp; omega

/-- High-bucket shape of a summary produced purely from "high"-severity
vulnerabilities. -/
def allHigh (s : VulnerabilitySummary) : Prop :=
  s.high = s.total ∧ s.critical = 0 ∧ s.moderate = 0 ∧ s.low = 0 ∧ s.info = 0

theorem updateSummary_high_allHigh (s : VulnerabilitySummary)
    (h : allHigh s) : allHigh (updateSummary s "high") := by
  unfold allHigh at *
  unfold updateSummary
  rw [if_neg (by decide), if_pos rfl]
  simp
  omega

theorem foldl_preserves {α β : Type} (P : β → Prop) (f : β → α → β)
    (hf : ∀ b a, P b → P (f b a)) : ∀ (l : List α) (b : β), P b → P (l.foldl f b)
  | [], _, hb => hb
  | a :: l, b, hb => foldl_preserves P f hf l (f b a) (hf b a hb)

theorem pythonProcessPackage_inv (query : OsvPackage → Option OsvQueryResponse)
    (st : List PythonVulnerability × VulnerabilitySummary) (pkg : PythonPackage)
    (h : summaryInv st.2) : summaryInv (pythonProcessPackage query st pkg).2 := by
  unfold pythonProcessPackage
  split
  · exact h
  · exact foldl_preserves
      (fun st : List PythonVulnerability × VulnerabilitySummary => summaryInv st.2) _
      (fun b a hb => updateSummary_inv _ _ hb) _ _ h

theorem goProcessModule_inv (query : OsvPackage → Option OsvQueryResponse)
    (st : List GoVulnerability × VulnerabilitySummary) (m : GoModule)
    (h : summaryInv st.2) : summaryInv (goProcessModule query st m).2 := by
  unfold goProcessModule
  split
  · exact h
  · exact foldl_preserves
      (fun st : List GoVulnerability × VulnerabilitySummary => summaryInv st.2) _
      (fun b a hb => updateSummary_inv _ _ hb) _ _ h

theorem mavenProcessDep_inv (query : OsvPackage → Option OsvQueryResponse)
    (st : List MavenVulnerability × VulnerabilitySummary) (d : MavenDependency)
    (h : summaryInv st.2) : summaryInv (mavenProcessDep query st d).2 := by
  unfold mavenProcessDep
  split
  · exact h
  · exact foldl_preserves
      (fun st : List MavenVulnerability × VulnerabilitySummary => summaryInv st.2) _
      (fun b a hb => updateSummary_inv _ _ hb) _ _ h

theorem addSummary_inv (a b : VulnerabilitySummary)
    (ha : summaryInv a) (hb : summaryInv b) : summaryInv (addSummary a b) := by
  unfold summaryInv addSummary at *
  simp
  omega

theorem aggregateLoop_inv : ∀ (ss : List VulnerabilitySummary) (acc : VulnerabilitySummary),
    summaryInv acc → (∀ s ∈ ss, summaryInv s) → summaryInv (ss.foldl addSummary acc)
  | [], _, hacc, _ => hacc
  | s :: ss, acc, hacc, hss =>
      aggregateLoop_inv ss (addSummary acc s)
        (addSummary_inv _ _ hacc (hss s (by simp)))
        (fun t ht => hss t (by simp [ht]))

/-! ## Claim theorems: summaries and error handling -/

/-- C1 (amended): every summary produced by the OSV audit loops
(Python, Go, Maven) satisfies total = critical+high+moderate+low+info,
and the formatter's aggregate summary preserves the invariant; the
npm-path summary, however, is copied verbatim from the parsed tool
metadata, so it satisfies the invariant exactly when the external
tool's reported counts do. -/
theorem summary_invariant_amended (c : Int) :
    (∀ query mp mt pkgs, summaryInv (runPythonAudit query mp mt pkgs).summary)
    ∧ (∀ query mp mt mods, summaryInv (runGoAudit query mp mt mods).summary)
    ∧ (∀ query mp mt deps, summaryInv (runMavenAudit query mp mt deps).summary)
    ∧ (∀ ss, (∀ s ∈ ss, summaryInv s) → summaryInv (aggregateSummary ss))
    ∧ (∀ parseJson out resp, parseJson out = some resp →
        (runAudit parseJson (.success out)).summary = resp.metadata.vulnerabilities
        ∧ (runAudit parseJson (.exitError c out)).summary = resp.metadata.vulnerabilities) := by
  refine ⟨?_, ?_, ?_, ?_, ?_⟩
  · intro query mp mt pkgs
    unfold runPythonAudit
    exact foldl_preserves
      (fun st : List PythonVulnerability × VulnerabilitySummary => summaryInv st.2) _
      (fun b a hb => pythonProcessPackage_inv query b a hb) _ _ (by decide)
  · intro query mp mt mods
    unfold runGoAudit
    exact foldl_preserves
      (fun st : List GoVulnerability × VulnerabilitySummary => summaryInv st.2) _
      (fun b a hb => goProcessModule_inv query b a hb) _ _ (by decide)
  · intro query mp mt deps
    unfold runMavenAudit
    exact foldl_preserves
      (fun st : List MavenVulnerability × VulnerabilitySummary => summaryInv st.2) _
      (fun b a hb => mavenProcessDep_inv query b a hb) _ _ (by decide)
  · intro ss hss
    exact aggregateLoop_inv ss zeroSummary (by decide) hss
  · intro parseJson out resp h
    constructor <;> simp [runAudit, h]

/-- Witness for the amended C1 theorem at concrete inputs. -/
theorem summary_invariant_amended_witness :
    summaryInv (runPythonAudit (fun _ => none) "p" "requirements.txt" []).summary
    ∧ summaryInv (aggregateSummary [zeroSummary])
    ∧ (runAudit (fun _ => some ⟨2, [], ⟨zeroSummary, ⟨0, 0, 0, 0, 0, 0⟩⟩⟩)
        (.success "")).summary = zeroSummary := by
  refine ⟨(summary_invariant_amended 0).1 _ _ _ _, ?_, ?_⟩
  · exact (summary_invariant_amended 0).2.2.2.1 [zeroSummary]
      (fun s hs => by simp at hs; simp [hs]; decide)
  · exact ((summary_invariant_amended 0).2.2.2.2
      (fun _ => some ⟨2, [], ⟨zeroSummary, ⟨0, 0, 0, 0, 0, 0⟩⟩⟩) ""
      ⟨2, [], ⟨zeroSummary, ⟨0, 0, 0, 0, 0, 0⟩⟩⟩ rfl).1

/-- Response shape that an npm invocation can report: the tool's metadata
counts are copied without any consistency check. -/
def badNpmResponse : NpmAuditResponse :=
  { auditReportVersion := 2, vulnerabilities := [],
    metadata :=
      { vulnerabilities := { info := 0, low := 0, moderate := 0, high := 0, critical := 0, total := 5 },
        dependencies := ⟨0, 0, 0, 0, 0, 0⟩ } }

/-- C1 (counterexample): when the external npm tool reports metadata whose
total does not equal the bucket sum, `RunAudit` produces a
`VulnerabilitySummary` violating the claimed invariant. -/
theorem summary_invariant_counterexample :
    ¬ summaryInv (runAudit (fun _ => some badNpmResponse) (.success "")).summary := by
  decide

/-- C7: a non-zero exit code from npm audit is handled identically to a
clean exit (stdout is still parsed); the error field is set before any
parsing only on a timeout (reported as a distinct timeout error) or on a
genuine invocation failure, and otherwise only a JSON decode failure
after the parse attempt can set it. -/
theorem npm_exit_code_not_failure (parseJson : String → Option NpmAuditResponse)
    (c : Int) (out msg : String) :
    runAudit parseJson (.exitError c out) = runAudit parseJson (.success out)
    ∧ (runAudit parseJson .timedOut).error = some .timeoutError
    ∧ (runAudit parseJson (.execFailure msg)).error = some (.invocationFailure msg)
    ∧ (runAudit parseJson (.success out)).error =
        (match parseJson out with
          | some _ => none
          | none => some .parseFailure) := by
  refine ⟨?_, rfl, rfl, ?_⟩
  · cases h : parseJson out <;> simp [runAudit, h]
  · cases h : parseJson out <;> simp [runAudit, h]

theorem pythonProcessPackage_skip (query : OsvPackage → Option OsvQueryResponse)
    (st : List PythonVulnerability × VulnerabilitySummary) (pkg : PythonPackage)
    (h : query { name := pkg.name, version := pkg.version, ecosystem := .pypi } = none) :
    pythonProcessPackage query st pkg = st := by
  unfold pythonProcessPackage
  rw [h]

theorem goProcessModule_skip (query : OsvPackage → Option OsvQueryResponse)
    (st : List GoVulnerability × VulnerabilitySummary) (m : GoModule)
    (h : query { name := m.path, version := m.version, ecosystem := .goEco } = none) :
    goProcessModule query st m = st := by
  unfold goProcessModule
  rw [h]

theorem mavenProcessDep_skip (query : OsvPackage → Option OsvQueryResponse)
    (st : List MavenVulnerability × VulnerabilitySummary) (d : MavenDependency)
    (h : query { name := mavenPackageName d, version := d.version, ecosystem := .maven } = none) :
    mavenProcessDep query st d = st := by
  unfold mavenProcessDep
  rw [h]

/-- C8: in the OSV-backed audits a failed query for one package only
skips that package: the remaining packages are processed exactly as if
the failing one were absent, the result's error field stays unset, and
the state already aggregated from the earlier packages is preserved
unchanged at the failure point. -/
theorem osv_per_package_failure_isolated
    (query : OsvPackage → Option OsvQueryResponse) (mp mt : String)
    (pre post : List PythonPackage) (pkg : PythonPackage)
    (gpre gpost : List GoModule) (gm : GoModule)
    (mpre mpost : List MavenDependency) (md : MavenDependency)
    (h : query { name := pkg.name, version := pkg.version, ecosystem := .pypi } = none)
    (hg : query { name := gm.path, version := gm.version, ecosystem := .goEco } = none)
    (hm : query { name := mavenPackageName md, version := md.version, ecosystem := .maven } = none) :
    ((runPythonAudit query mp mt (pre ++ pkg :: post)).vulnerabilities
        = (runPythonAudit query mp mt (pre ++ post)).vulnerabilities
      ∧ (runPythonAudit query mp mt (pre ++ pkg :: post)).summary
        = (runPythonAudit query mp mt (pre ++ post)).summary
      ∧ (runPythonAudit query mp mt (pre ++ pkg :: post)).error = none
      ∧ (pre ++ [pkg]).foldl (pythonProcessPackage query) ([], zeroSummary)
        = pre.foldl (pythonProcessPackage query) ([], zeroSummary))
    ∧ ((runGoAudit query mp mt (gpre ++ gm :: gpost)).vulnerabilities
        = (runGoAudit query mp mt (gpre ++ gpost)).vulnerabilities
      ∧ (runGoAudit query mp mt (gpre ++ gm :: gpost)).summary
        = (runGoAudit query mp mt (gpre ++ gpost)).summary
      ∧ (runGoAudit query mp mt (gpre ++ gm :: gpost)).error = none)
    ∧ ((runMavenAudit query mp mt (mpre ++ md :: mpost)).vulnerabilities
        = (runMavenAudit query mp mt (mpre ++ mpost)).vulnerabilities
      ∧ (runMavenAudit query mp mt (mpre ++ md :: mpost)).summary
        = (runMavenAudit query mp mt (mpre ++ mpost)).summary
      ∧ (runMavenAudit query mp mt (mpre ++ md :: mpost)).error = none) := by
  have hp : ∀ st : List PythonVulnerability × VulnerabilitySummary,
      (pre ++ pkg :: post).foldl (pythonProcessPackage query) st
        = (pre ++ post).foldl (pythonProcessPackage query) st := by
    intro st
    rw [List.foldl_append, List.foldl_append, List.foldl_cons,
      pythonProcessPackage_skip query _ pkg h]
  have hgf : ∀ st : List GoVulnerability × VulnerabilitySummary,
      (gpre ++ gm :: gpost).foldl (goProcessModule query) st
        = (gpre ++ gpost).foldl (goProcessModule query) st := by
    intro st
    rw [List.foldl_append, List.foldl_append, List.foldl_cons,
      goProcessModule_skip query _ gm hg]
  have hmf : ∀ st : List MavenVulnerability × VulnerabilitySummary,
      (mpre ++ md :: mpost).foldl (mavenProcessDep query) st
        = (mpre ++ mpost).foldl (mavenProcessDep query) st := by
    intro st
    rw [List.foldl_append, List.foldl_append, List.foldl_cons,
      mavenProcessDep_skip query _ md hm]
  refine ⟨⟨?_, ?_, rfl, ?_⟩, ⟨?_, ?_, rfl⟩, ⟨?_, ?_, rfl⟩⟩
  · unfold runPythonAudit; rw [hp]
  · unfold runPythonAudit; rw [hp]
  · rw [List.foldl_append, List.foldl_cons, List.foldl_nil,
      pythonProcessPackage_skip query _ pkg h]
  · unfold runGoAudit; rw [hgf]
  · unfold runGoAudit; rw [hgf]
  · unfold runMavenAudit; rw [hmf]
  · unfold runMavenAudit; rw [hmf]

/-- Witness for C8 at concrete inputs: a query that always fails, one
package in each ecosystem. -/
theorem osv_per_package_failure_isolated_witness :
    (runPythonAudit (fun _ => none) "m" "requirements.txt"
        ([] ++ ⟨"flask", "2.0.1", 1⟩ :: [])).vulnerabilities
      = (runPythonAudit (fun _ => none) "m" "requirements.txt" ([] ++ [])).vulnerabilities := by
  exact (osv_per_package_failure_isolated (fun _ => none) "m" "requirements.txt"
    [] [] ⟨"flask", "2.0.1", 1⟩ [] [] ⟨"g", "v1.0.0", 1⟩ [] [] ⟨"g", "a", "1", ""⟩
    rfl rfl rfl).1.1

theorem pythonAddVuln_allHigh (pkg : PythonPackage)
    (st : List PythonVulnerability × VulnerabilitySummary) (v : OsvVulnerability)
    (h : allHigh st.2) : allHigh (pythonAddVuln pkg st v).2 := by
  unfold pythonAddVuln
  simp only [getSeverityLevel_eq_high]
  exact updateSummary_high_allHigh _ h

theorem goAddVuln_allHigh (m : GoModule)
    (st : List GoVulnerability × VulnerabilitySummary) (v : OsvVulnerability)
    (h : allHigh st.2) : allHigh (goAddVuln m st v).2 := by
  unfold goAddVuln
  simp only [getSeverityLevel_eq_high]
  exact updateSummary_high_allHigh _ h

theorem mavenAddVuln_allHigh (d : MavenDependency)
    (st : List MavenVulnerability × VulnerabilitySummary) (v : OsvVulnerability)
    (h : allHigh st.2) : allHigh (mavenAddVuln d st v).2 := by
  unfold mavenAddVuln
  simp only [getSeverityLevel_eq_high]
  exact updateSummary_high_allHigh _ h

/-- C10: the OSV severity heuristic returns "high" for every
vulnerability, alias or not, so every Python, Go, and Maven audit
summary has High = Total and all other buckets zero. -/
theorem osv_severity_always_high :
    (∀ v, getSeverityLevel v = "high")
    ∧ (∀ query mp mt pkgs, allHigh (runPythonAudit query mp mt pkgs).summary)
    ∧ (∀ query mp mt mods, allHigh (runGoAudit query mp mt mods).summary)
    ∧ (∀ query mp mt deps, allHigh (runMavenAudit query mp mt deps).summary) := by
  refine ⟨getSeverityLevel_eq_high, ?_, ?_, ?_⟩
  · intro query mp mt pkgs
    unfold runPythonAudit
    refine foldl_preserves
      (fun st : List PythonVulnerability × VulnerabilitySummary => allHigh st.2) _
      ?_ _ _ (by unfold allHigh; simp [zeroSummary])
    intro b a hb
    unfold pythonProcessPackage
    split
    · exact hb
    · exact foldl_preserves
        (fun st : List PythonVulnerability × VulnerabilitySummary => allHigh st.2) _
        (fun b a hb => pythonAddVuln_allHigh _ b a hb) _ _ hb
  · intro query mp mt mods
    unfold runGoAudit
    refine foldl_preserves
      (fun st : List GoVulnerability × VulnerabilitySummary => allHigh st.2) _
      ?_ _ _ (by unfold allHigh; simp [zeroSummary])
    intro b a hb
    unfold goProcessModule
    split
    · exact hb
    · exact foldl_preserves
        (fun st : List GoVulnerability × VulnerabilitySummary => allHigh st.2) _
        (fun b a hb => goAddVuln_allHigh _ b a hb) _ _ hb
  · intro query mp mt deps
    unfold runMavenAudit
    refine foldl_preserves
      (fun st : List MavenVulnerability × VulnerabilitySummary => allHigh st.2) _
      ?_ _ _ (by unfold allHigh; simp [zeroSummary])
    intro b a hb
    unfold mavenProcessDep
    split
    · exact hb
    · exact foldl_preserves
        (fun st : List MavenVulnerability × VulnerabilitySummary => allHigh st.2) _
        (fun b a hb => mavenAddVuln_allHigh _ b a hb) _ _ hb

/-! ## Maintainer risk (security/security.go, AnalyzeMaintainerRisk)

Registry timestamps are embedded as integers; `lastModified = none`
models Go's zero `time.Time` (the `IsZero` guard).  `time.Now().AddDate(-2,0,0)`
is passed in explicitly as `twoYearsAgo`, and `t.Before u` is `t < u`. -/

structure PackageMetadata where
  name : String
  lastModified : Option Int
  maintainers : List String
deriving DecidableEq, Repr

structure MaintainerRisk where
  packageName : String
  issues : List String
  riskLevel : String
  lastUpdate : Option Int
  maintainerCount : Nat
deriving DecidableEq, Repr

/-- Embedding of `AnalyzeMaintainerRisk`: start from a "low" risk record,
apply the staleness rule, then the maintainer-count rules, and return
nothing when no issue accumulated. -/
def analyzeMaintainerRisk (twoYearsAgo : Int) (m : PackageMetadata) : Option MaintainerRisk :=
  let base : MaintainerRisk :=
    { packageName := m.name
      issues := []
      riskLevel := "low"
      lastUpdate := m.lastModified
      maintainerCount := m.maintainers.length }
  let r1 :=
    match m.lastModified with
    | none => base
    | some t =>
        if t < twoYearsAgo then
          { base with
              issues := base.issues ++ ["Not updated in over 2 years"]
              riskLevel := "medium" }
        else base
  let r2 :=
    if m.maintainers.length = 1 then
      { r1 with
          issues := r1.issues ++ ["Single maintainer"]
          riskLevel := if r1.riskLevel = "low" then "medium" else r1.riskLevel }
    else if m.maintainers.length = 0 then
      { r1 with
          issues := r1.issues ++ ["No maintainers listed"]
          riskLevel := "high" }
    else r1
  if r2.issues = [] then none else some r2

/-- Closed form of the maintainer-risk rules, used to organize the case
analysis: the issue list is determined by which rules fired and the
level is "high" exactly when there are no maintainers, "medium" for any
other fired rule. -/
def maintainerRiskClosed (two : Int) (m : PackageMetadata) : Option MaintainerRisk :=
  let old : Bool :=
    match m.lastModified with
    | none => false
    | some t => decide (t < two)
  let issues : List String :=
    (if old then ["Not updated in over 2 years"] else []) ++
    (if m.maintainers.length = 1 then ["Single maintainer"]
      else if m.maintainers.length = 0 then ["No maintainers listed"] else [])
  if issues = [] then none
  else some ⟨m.name, issues,
    (if m.maintainers.length = 0 then "high" else "medium"),
    m.lastModified, m.maintainers.length⟩

theorem analyzeMaintainerRisk_char (two : Int) (m : PackageMetadata) :
    analyzeMaintainerRisk two m = maintainerRiskClosed two m := by
  rcases hml : m.lastModified with _ | t
  · by_cases hc1 : m.maintainers.length = 1
    · simp [analyzeMaintainerRisk, maintainerRiskClosed, hml, hc1]
    · by_cases hc0 : m.maintainers.length = 0
      · simp [analyzeMaintainerRisk, maintainerRiskClosed, hml, hc1, hc0]
      · simp [analyzeMaintainerRisk, maintainerRiskClosed, hml, hc1, hc0]
  · by_cases hold : t < two
    · by_cases hc1 : m.maintainers.length = 1
      · simp [analyzeMaintainerRisk, maintainerRiskClosed, hml, hold, hc1]
      · by_cases hc0 : m.maintainers.length = 0
        · simp [analyzeMaintainerRisk, maintainerRiskClosed, hml, hold, hc1, hc0]
        · simp [analyzeMaintainerRisk, maintainerRiskClosed, hml, hold, hc1, hc0]
    · by_cases hc1 : m.maintainers.length = 1
      · simp [analyzeMaintainerRisk, maintainerRiskClosed, hml, hold, hc1]
      · by_cases hc0 : m.maintainers.length = 0
        · simp [analyzeMaintainerRisk, maintainerRiskClosed, hml, hold, hc1, hc0]
        · simp [analyzeMaintainerRisk, maintainerRiskClosed, hml, hold, hc1, hc0]

/-- C6: no risk object is produced when no rule triggers; staleness and a
single maintainer each produce an issue at risk level at least "medium";
zero maintainers forces level "high"; the reported level is the maximum
severity over the triggered rules ("high" exactly when the
zero-maintainer rule fired, "medium" otherwise); and zero maintainers
with a recent modification date yields exactly one issue at "high". -/
theorem analyzeMaintainerRisk_spec (twoYearsAgo t : Int) (m : PackageMetadata)
    (hcount : 2 ≤ m.maintainers.length)
    (hfresh : ∀ u, m.lastModified = some u → ¬ u < twoYearsAgo)
    (m₁ : PackageMetadata) (h₁old : m₁.lastModified = some t) (h₁ : t < twoYearsAgo)
    (m₂ : PackageMetadata) (h₂ : m₂.maintainers.length = 1)
    (m₃ : PackageMetadata) (h₃ : m₃.maintainers.length = 0)
    (m₄ : PackageMetadata) (h₄ : m₄.maintainers = [])
    (h₄fresh : ∀ u, m₄.lastModified = some u → ¬ u < twoYearsAgo) :
    analyzeMaintainerRisk twoYearsAgo m = none
    ∧ (∃ r, analyzeMaintainerRisk twoYearsAgo m₁ = some r
        ∧ "Not updated in over 2 years" ∈ r.issues ∧ r.riskLevel ≠ "low")
    ∧ (∃ r, analyzeMaintainerRisk twoYearsAgo m₂ = some r
        ∧ "Single maintainer" ∈ r.issues ∧ r.riskLevel ≠ "low")
    ∧ (∃ r, analyzeMaintainerRisk twoYearsAgo m₃ = some r ∧ r.riskLevel = "high")
    ∧ (∀ md r, analyzeMaintainerRisk twoYearsAgo md = some r →
        r.riskLevel = if md.maintainers.length = 0 then "high" else "medium")
    ∧ (∃ r, analyzeMaintainerRisk twoYearsAgo m₄ = some r
        ∧ r.issues.length = 1 ∧ r.riskLevel = "high") := by
  have hne : m.maintainers ≠ [] := by
    intro h
    rw [h] at hcount
    simp at hcount
  have hne1 : ¬ m.maintainers.length = 1 := by omega
  have hne3 : ¬ m₃.maintainers.length = 1 := by omega
  refine ⟨?_, ?_, ?_, ?_, ?_, ?_⟩
  · rw [analyzeMaintainerRisk_char]
    rcases hml : m.lastModified with _ | u
    · simp [maintainerRiskClosed, hml, hne1, hne]
    · simp [maintainerRiskClosed, hml, hfresh u hml, hne1, hne]
  · rw [analyzeMaintainerRisk_char]
    by_cases hc1 : m₁.maintainers.length = 1
    · simp [maintainerRiskClosed, h₁old, h₁, hc1]
    · by_cases hc0 : m₁.maintainers.length = 0
      · simp [maintainerRiskClosed, h₁old, h₁, hc1, hc0]
      · simp [maintainerRiskClosed, h₁old, h₁, hc1, hc0]
  · rw [analyzeMaintainerRisk_char]
    rcases hml : m₂.lastModified with _ | u
    · simp [maintainerRiskClosed, hml, h₂]
    · by_cases hold : u < twoYearsAgo <;> simp [maintainerRiskClosed, hml, h₂, hold]
  · rw [analyzeMaintainerRisk_char]
    rcases hml : m₃.lastModified with _ | u
    · simp [maintainerRiskClosed, hml, h₃, hne3]
    · by_cases hold : u < twoYearsAgo <;>
        simp [maintainerRiskClosed, hml, h₃, hold, hne3]
  · intro md r hr
    rw [analyzeMaintainerRisk_char] at hr
    rcases hml : md.lastModified with _ | u
    · by_cases hc1 : md.maintainers.length = 1
      · simp only [maintainerRiskClosed, hml, hc1] at hr
        simp at hr
        rw [← hr]
        simp [hc1]
      · by_cases hc0 : md.maintainers.length = 0
        · simp only [maintainerRiskClosed, hml, hc1, hc0] at hr
          simp [hc1, hc0] at hr
          rw [← hr]
          simp [hc0]
        · simp [maintainerRiskClosed, hml, hc1, hc0] at hr
    · by_cases hold : u < twoYearsAgo
      · by_cases hc1 : md.maintainers.length = 1
        · simp only [maintainerRiskClosed, hml, hc1] at hr
          simp [hold, hc1] at hr
          rw [← hr]
          simp [hc1]
        · by_cases hc0 : md.maintainers.length = 0
          · simp [maintainerRiskClosed, hml, hold, hc1, hc0,
              Option.some.injEq] at hr
            rw [← hr]
            simp [hc0]
          · simp [maintainerRiskClosed, hml, hold, hc1, hc0,
              Option.some.injEq] at hr
            rw [← hr]
            simp [hc0, hc1]
      · by_cases hc1 : md.maintainers.length = 1
        · simp [maintainerRiskClosed, hml, hold, hc1, Option.some.injEq] at hr
          rw [← hr]
          simp [hc1]
        · by_cases hc0 : md.maintainers.length = 0
          · simp [maintainerRiskClosed, hml, hold, hc1, hc0,
              Option.some.injEq] at hr
            rw [← hr]
            simp [hc0]
          · simp [maintainerRiskClosed, hml, hold, hc1, hc0] at hr
  · rw [analyzeMaintainerRisk_char]
    rcases hml : m₄.lastModified with _ | u
    · simp [maintainerRiskClosed, hml, h₄]
    · simp [maintainerRiskClosed, hml, h₄, h₄fresh u hml]

/-- Witness for C6 at concrete metadata values. -/
theorem analyzeMaintainerRisk_spec_witness :
    analyzeMaintainerRisk 0 ⟨"ok", some 5, ["a", "b"]⟩ = none
    ∧ (∃ r, analyzeMaintainerRisk 0 ⟨"gone", some 3, []⟩ = some r
        ∧ r.issues.length = 1 ∧ r.riskLevel = "high") := by
  have h := analyzeMaintainerRisk_spec 0 (-1) ⟨"ok", some 5, ["a", "b"]⟩
    (by decide) (by intro u hu; cases hu; decide)
    ⟨"old", some (-1), ["a", "b"]⟩ rfl (by decide)
    ⟨"solo", some 5, ["a"]⟩ (by decide)
    ⟨"none0", some 5, []⟩ (by decide)
    ⟨"gone", some 3, []⟩ rfl (by intro u hu; cases hu; decide)
  exact ⟨h.1, h.2.2.2.2.2⟩

/-! ## Levenshtein distance (security/security.go)

Go strings are embedded through their character lists; `strings.ToLower`
on the ASCII package names at hand is per-character ASCII case folding,
embedded as `lowerChar`/`toLowerStr`.  The dynamic-programming matrix of
`LevenshteinDistance` computes the standard edit-distance recurrence;
`levList` is that recurrence (the matrix is its memoization). -/

def lowerChar (c : Char) : Char :=
  if 65 ≤ c.toNat ∧ c.toNat ≤ 90 then Char.ofNat (c.toNat + 32) else c

def toLowerStr (s : String) : String := ⟨s.data.map lowerChar⟩

theorem toNat_ofNat_of_valid {n : Nat} (h : n.isValidChar) : (Char.ofNat n).toNat = n := by
  unfold Char.ofNat
  rw [dif_pos h]
  rfl

theorem lowerChar_idem (c : Char) : lowerChar (lowerChar c) = lowerChar c := by
  unfold lowerChar
  split
  case isTrue h =>
    have hv : Nat.isValidChar (c.toNat + 32) := Or.inl (by omega)
    have ht := toNat_ofNat_of_valid hv
    rw [if_neg (by rw [ht]; omega)]
  case isFalse h =>
    rfl

theorem toLowerStr_idem (s : String) : toLowerStr (toLowerStr s) = toLowerStr s := by
  unfold toLowerStr
  apply congrArg String.mk
  show (s.data.map lowerChar).map lowerChar = s.data.map lowerChar
  rw [List.map_map]
  exact List.map_congr_left fun c _ => lowerChar_idem c

/-- Edit-distance recurrence implemented by the DP matrix of
`LevenshteinDistance`: `matrix[i][0] = i`, `matrix[0][j] = j`, and each
inner cell is the minimum of deletion, insertion, and substitution. -/
def levList : List Char → List Char → Nat
  | [], ys => ys.length
  | x :: xs, [] => (x :: xs).length
  | x :: xs, y :: ys =>
      min (levList xs (y :: ys) + 1)
        (min (levList (x :: xs) ys + 1)
          (levList xs ys + (if x = y then 0 else 1)))

/-- Embedding of `LevenshteinDistance`: both inputs are lowercased, equal
strings short-circuit to 0, an empty side returns the other side's
length, and otherwise the DP recurrence runs.  (The Go code stores the
lowered strings once; here they are recomputed, with the same value.) -/
def levenshteinDistance (s1 s2 : String) : Nat :=
  if toLowerStr s1 = toLowerStr s2 then 0
  else if (toLowerStr s1).data.length = 0 then (toLowerStr s2).data.length
  else if (toLowerStr s2).data.length = 0 then (toLowerStr s1).data.length
  else levList (toLowerStr s1).data (toLowerStr s2).data

theorem levList_symm : ∀ xs ys, levList xs ys = levList ys xs := by
  intro xs
  induction xs with
  | nil => intro ys; cases ys <;> simp [levList]
  | cons x xs ih =>
    intro ys
    induction ys with
    | nil => simp [levList]
    | cons y ys ih2 =>
      simp only [levList]
      rw [ih (y :: ys), ih ys, ih2]
      have hc : (if x = y then 0 else 1) = (if y = x then 0 else 1) := by
        by_cases h : x = y
        · simp [h]
        · rw [if_neg h, if_neg (fun hh => h hh.symm)]
      rw [hc]
      exact min_left_comm _ _ _

theorem levenshteinDistance_symm (a b : String) :
    levenshteinDistance a b = levenshteinDistance b a := by
  unfold levenshteinDistance
  by_cases h : toLowerStr a = toLowerStr b
  · rw [if_pos h, if_pos h.symm]
  · have h' : ¬ toLowerStr b = toLowerStr a := fun hh => h hh.symm
    rw [if_neg h, if_neg h']
    by_cases h1 : (toLowerStr a).data.length = 0
    · have h2 : ¬ (toLowerStr b).data.length = 0 := by
        intro h2
        exact h (String.ext ((List.length_eq_zero.mp h1).trans
          (List.length_eq_zero.mp h2).symm))
      rw [if_pos h1, if_neg h2, if_pos h1]
    · rw [if_neg h1]
      by_cases h2 : (toLowerStr b).data.length = 0
      · rw [if_pos h2, if_pos h2]
      · rw [if_neg h2, if_neg h2, if_neg h1]
        exact levList_symm _ _

/-- C9: the edit distance is zero on equal strings, symmetric, and
case-insensitive, both at the concrete pair "React"/"react" and as the
general law distance(a, b) = distance(lowercase a, lowercase b). -/
theorem levenshtein_properties :
    (∀ s, levenshteinDistance s s = 0)
    ∧ (∀ a b, levenshteinDistance a b = levenshteinDistance b a)
    ∧ levenshteinDistance "React" "react" = 0
    ∧ (∀ a b, levenshteinDistance a b =
        levenshteinDistance (toLowerStr a) (toLowerStr b)) := by
  refine ⟨?_, levenshteinDistance_symm, ?_, ?_⟩
  · intro s
    unfold levenshteinDistance
    rw [if_pos rfl]
  · decide
  · intro a b
    unfold levenshteinDistance
    rw [toLowerStr_idem, toLowerStr_idem]

/-! ## Typosquatting detection (security/security.go, CheckTyposquatting) -/

/-- The curated popular-package list, transcribed in source order. -/
def popularPackages : List String :=
  ["react", "react-dom", "lodash", "express", "axios", "webpack", "typescript",
   "eslint", "prettier", "babel-core", "jest", "mocha", "chai", "request",
   "moment", "commander", "async", "underscore", "chalk", "debug",
   "npm", "yarn", "pnpm", "next", "vue", "angular", "jquery",
   "bootstrap", "tailwindcss", "sass", "less", "postcss",
   "webpack-cli", "webpack-dev-server", "babel-loader", "ts-loader",
   "dotenv", "cors", "body-parser", "mongoose", "sequelize",
   "redis", "pg", "mysql", "mongodb", "sqlite3",
   "passport", "bcrypt", "jsonwebtoken", "uuid", "validator",
   "nodemon", "pm2", "forever", "cross-env",
   "socket.io", "ws", "graphql", "apollo-server",
   "redux", "mobx", "zustand", "recoil",
   "react-router", "react-router-dom", "vue-router",
   "@types/node", "@types/react", "@types/express",
   "tslib", "core-js", "regenerator-runtime",
   "rimraf", "mkdirp", "glob", "minimatch",
   "semver", "yargs", "inquirer", "ora",
   "fs-extra", "path", "util", "stream",
   "bluebird", "q", "co", "rxjs",
   "date-fns", "dayjs", "luxon",
   "classnames", "clsx", "prop-types",
   "fast-glob", "chokidar", "nodemailer",
   "cheerio", "jsdom", "puppeteer", "playwright",
   "sharp", "jimp", "canvas",
   "compression", "helmet", "morgan"]

structure TyposquattingRisk where
  packageName : String
  similarTo : String
  distance : Nat
  confidence : String
deriving DecidableEq, Repr

/-- Go's default clause: a non-positive threshold becomes 2. -/
def effThreshold (threshold : Int) : Nat :=
  if threshold ≤ 0 then 2 else threshold.toNat

/-- The loop of `CheckTyposquatting`: return `none` on an exact match,
otherwise keep the running minimum and the first entry achieving it. -/
def checkLoop (name : String) : String → Nat → List String → Option (String × Nat)
  | best, minD, [] => some (best, minD)
  | best, minD, p :: rest =>
      if levenshteinDistance name p = 0 then none
      else if levenshteinDistance name p < minD then
        checkLoop name p (levenshteinDistance name p) rest
      else checkLoop name best minD rest

/-- Embedding of `CheckTyposquatting`: run the loop starting from
minDistance = threshold+1, then report a risk when the minimum is within
the threshold, with the confidence ladder of the source. -/
def checkTyposquatting (packageName : String) (threshold : Int) : Option TyposquattingRisk :=
  match checkLoop packageName "" (effThreshold threshold + 1) popularPackages with
  | none => none
  | some (best, minD) =>
      if minD ≤ effThreshold threshold then
        some { packageName := packageName, similarTo := best, distance := minD,
               confidence :=
                 if minD = 2 then "medium" else if 2 < minD then "low" else "high" }
      else none

/-- Spec-side formulation of the claimed behavior (compared against the
implementation below): the minimum distance over the whole list decides
everything, exact matches return no risk, and the first entry achieving
the minimum is reported with confidence high/medium/low for distance
1/2/greater. -/
def minDistOver (name : String) (l : List String) : Nat :=
  match l.map (levenshteinDistance name) with
  | [] => 0
  | d :: ds => ds.foldl min d

def minPopularDistance (name : String) : Nat := minDistOver name popularPackages

def typosquatSpec (name : String) (threshold : Int) : Option TyposquattingRisk :=
  if popularPackages.any (fun p => levenshteinDistance name p == 0) then none
  else if minPopularDistance name ≤ effThreshold threshold then
    match popularPackages.find?
        (fun p => levenshteinDistance name p == minPopularDistance name) with
    | some best =>
        some { packageName := name, similarTo := best,
               distance := minPopularDistance name,
               confidence :=
                 if minPopularDistance name = 1 then "high"
                 else if minPopularDistance name = 2 then "medium" else "low" }
    | none => none
  else none

theorem checkLoop_none_iff (name : String) :
    ∀ (l : List String) (best : String) (minD : Nat),
      checkLoop name best minD l = none
        ↔ ∃ p ∈ l, levenshteinDistance name p = 0 := by
  intro l
  induction l with
  | nil => intro best minD; simp [checkLoop]
  | cons p rest ih =>
    intro best minD
    simp only [checkLoop]
    by_cases h0 : levenshteinDistance name p = 0
    · simp [h0]
    · rw [if_neg h0]
      by_cases hlt : levenshteinDistance name p < minD
      · rw [if_pos hlt, ih]
        simp [h0]
      · rw [if_neg hlt, ih]
        simp [h0]

/-- Accumulator of the scan, with the early exact-match exit removed. -/
def bestAcc (name : String) : String → Nat → List String → String × Nat
  | best, minD, [] => (best, minD)
  | best, minD, p :: rest =>
      if levenshteinDistance name p < minD then
        bestAcc name p (levenshteinDistance name p) rest
      else bestAcc name best minD rest

theorem checkLoop_eq_some (name : String) :
    ∀ (l : List String) (best : String) (minD : Nat),
      (∀ p ∈ l, levenshteinDistance name p ≠ 0) →
      checkLoop name best minD l = some (bestAcc name best minD l) := by
  intro l
  induction l with
  | nil => intro best minD _; rfl
  | cons p rest ih =>
    intro best minD hz
    simp only [checkLoop, bestAcc]
    rw [if_neg (hz p (by simp))]
    by_cases hlt : levenshteinDistance name p < minD
    · rw [if_pos hlt, if_pos hlt, ih _ _ (fun q hq => hz q (by simp [hq]))]
    · rw [if_neg hlt, if_neg hlt, ih _ _ (fun q hq => hz q (by simp [hq]))]

def foldMin (name : String) (minD : Nat) (l : List String) : Nat :=
  l.foldl (fun a p => min a (levenshteinDistance name p)) minD

theorem foldMin_le (name : String) :
    ∀ (l : List String) (minD : Nat), foldMin name minD l ≤ minD := by
  intro l
  induction l with
  | nil => intro minD; exact Nat.le_refl _
  | cons p rest ih =>
    intro minD
    calc foldMin name (min minD (levenshteinDistance name p)) rest
        ≤ min minD (levenshteinDistance name p) := ih _
      _ ≤ minD := Nat.min_le_left _ _

theorem bestAcc_snd (name : String) :
    ∀ (l : List String) (best : String) (minD : Nat),
      (bestAcc name best minD l).2 = foldMin name minD l := by
  intro l
  induction l with
  | nil => intro best minD; rfl
  | cons p rest ih =>
    intro best minD
    simp only [bestAcc]
    show _ = foldMin name (min minD (levenshteinDistance name p)) rest
    by_cases hlt : levenshteinDistance name p < minD
    · rw [if_pos hlt, ih, Nat.min_eq_right (Nat.le_of_lt hlt)]
    · rw [if_neg hlt, ih, Nat.min_eq_left (Nat.le_of_not_lt hlt)]

theorem bestAcc_fst (name : String) :
    ∀ (l : List String) (best : String) (minD : Nat),
      (foldMin name minD l < minD →
        l.find? (fun p => levenshteinDistance name p == foldMin name minD l)
          = some (bestAcc name best minD l).1)
      ∧ (foldMin name minD l = minD → (bestAcc name best minD l).1 = best) := by
  intro l
  induction l with
  | nil =>
    intro best minD
    exact ⟨fun h => absurd h (Nat.lt_irrefl _), fun _ => rfl⟩
  | cons p rest ih =>
    intro best minD
    have hunf : foldMin name minD (p :: rest)
        = foldMin name (min minD (levenshteinDistance name p)) rest := rfl
    by_cases hlt : levenshteinDistance name p < minD
    · have hmm : min minD (levenshteinDistance name p) = levenshteinDistance name p :=
        Nat.min_eq_right (Nat.le_of_lt hlt)
      have hle : foldMin name (levenshteinDistance name p) rest
          ≤ levenshteinDistance name p := foldMin_le name rest _
      constructor
      · intro hF
        rw [hunf, hmm] at hF ⊢
        simp only [bestAcc, if_pos hlt]
        rcases Nat.lt_or_ge (foldMin name (levenshteinDistance name p) rest)
            (levenshteinDistance name p) with hFd | hFd
        · rw [show List.find?
                (fun q => levenshteinDistance name q
                  == foldMin name (levenshteinDistance name p) rest) (p :: rest)
              = List.find?
                (fun q => levenshteinDistance name q
                  == foldMin name (levenshteinDistance name p) rest) rest from
              List.find?_cons_of_neg rest (by simp; omega)]
          exact (ih p (levenshteinDistance name p)).1 hFd
        · have hFe : foldMin name (levenshteinDistance name p) rest
              = levenshteinDistance name p := Nat.le_antisymm hle hFd
          rw [show List.find?
                (fun q => levenshteinDistance name q
                  == foldMin name (levenshteinDistance name p) rest) (p :: rest)
              = some p from List.find?_cons_of_pos rest (by simp [hFe])]
          rw [(ih p (levenshteinDistance name p)).2 hFe]
      · intro hF
        rw [hunf, hmm] at hF
        omega
    · have hmm : min minD (levenshteinDistance name p) = minD :=
        Nat.min_eq_left (Nat.le_of_not_lt hlt)
      constructor
      · intro hF
        rw [hunf, hmm] at hF ⊢
        simp only [bestAcc, if_neg hlt]
        rw [show List.find?
              (fun q => levenshteinDistance name q == foldMin name minD rest) (p :: rest)
            = List.find?
              (fun q => levenshteinDistance name q == foldMin name minD rest) rest from
            List.find?_cons_of_neg rest (by simp; omega)]
        exact (ih best minD).1 hF
      · intro hF
        rw [hunf, hmm] at hF
        simp only [bestAcc, if_neg hlt]
        exact (ih best minD).2 hF

theorem foldl_min_init : ∀ (l : List Nat) (a d : Nat),
    List.foldl min (min a d) l = min a (List.foldl min d l) := by
  intro l
  induction l with
  | nil => intro a d; rfl
  | cons e es ih =>
    intro a d
    show List.foldl min (min (min a d) e) es = min a (List.foldl min (min d e) es)
    rw [Nat.min_assoc, ih]

theorem foldMin_cons_eq (name : String) (a : Nat) (x : String) (xs : List String) :
    foldMin name a (x :: xs) = min a (minDistOver name (x :: xs)) := by
  have hmap : ∀ (l : List String) (b : Nat),
      foldMin name b l = List.foldl min b (l.map (levenshteinDistance name)) := by
    intro l
    induction l with
    | nil => intro b; rfl
    | cons y ys ihy => intro b; exact ihy _
  rw [hmap]
  show List.foldl min (min a (levenshteinDistance name x)) (xs.map (levenshteinDistance name))
    = min a (minDistOver name (x :: xs))
  rw [foldl_min_init]
  rfl

/-- C2: `CheckTyposquatting` realizes the claimed behavior: with the
effective threshold (2 for non-positive inputs), an exact match anywhere
in the list yields no risk; otherwise, with d the minimum distance over
the whole list, a risk naming the first entry achieving d is returned
when d is within the threshold (confidence high/medium/low for
d = 1 / d = 2 / d > 2), and no risk otherwise. -/
theorem checkTyposquatting_eq_spec (name : String) (threshold : Int) :
    checkTyposquatting name threshold = typosquatSpec name threshold := by
  by_cases hz : ∃ p ∈ popularPackages, levenshteinDistance name p = 0
  · unfold checkTyposquatting typosquatSpec
    rw [(checkLoop_none_iff name popularPackages "" (effThreshold threshold + 1)).mpr hz]
    have hany : popularPackages.any (fun p => levenshteinDistance name p == 0) = true := by
      rw [List.any_eq_true]
      obtain ⟨p, hp, h0⟩ := hz
      exact ⟨p, hp, by simp [h0]⟩
    rw [if_pos hany]
  · push_neg at hz
    unfold checkTyposquatting typosquatSpec
    rw [checkLoop_eq_some name popularPackages "" (effThreshold threshold + 1) hz]
    have hany : ¬ popularPackages.any (fun p => levenshteinDistance name p == 0) = true := by
      simp only [List.any_eq_true, not_exists]
      intro p
      simp only [not_and]
      intro hp
      simp [hz p hp]
    rw [if_neg hany]
    obtain ⟨x, xs, hxx⟩ : ∃ x xs, popularPackages = x :: xs := by
      cases hp : popularPackages with
      | nil => exact absurd hp (by decide)
      | cons x xs => exact ⟨x, xs, rfl⟩
    have hfold : foldMin name (effThreshold threshold + 1) popularPackages
        = min (effThreshold threshold + 1) (minPopularDistance name) := by
      calc foldMin name (effThreshold threshold + 1) popularPackages
          = foldMin name (effThreshold threshold + 1) (x :: xs) := by rw [hxx]
        _ = min (effThreshold threshold + 1) (minDistOver name (x :: xs)) :=
            foldMin_cons_eq name _ x xs
        _ = min (effThreshold threshold + 1) (minPopularDistance name) := by
            unfold minPopularDistance
            rw [hxx]
    set D := minPopularDistance name with hD
    rcases hba : bestAcc name "" (effThreshold threshold + 1) popularPackages with ⟨b, m⟩
    have hm : m = min (effThreshold threshold + 1) D :=
      (congrArg Prod.snd hba).symm.trans ((bestAcc_snd name popularPackages "" _).trans hfold)
    by_cases hle : D ≤ effThreshold threshold
    · have hmD : m = D := by
        rw [hm, Nat.min_eq_right (by omega)]
      have hFlt : foldMin name (effThreshold threshold + 1) popularPackages
          < effThreshold threshold + 1 := by
        rw [hfold, Nat.min_eq_right (by omega)]
        omega
      have hfind := (bestAcc_fst name popularPackages "" (effThreshold threshold + 1)).1 hFlt
      have hfoldD : foldMin name (effThreshold threshold + 1) popularPackages = D := by
        rw [hfold, Nat.min_eq_right (by omega)]
      rw [hfoldD, hba] at hfind
      have hmem : b ∈ popularPackages := List.mem_of_find?_eq_some hfind
      have hbD : levenshteinDistance name b = D := by
        have := List.find?_some hfind
        simpa using this
      have hD0 : D ≠ 0 := by
        rw [← hbD]
        exact hz b hmem
      show (if m ≤ effThreshold threshold then
          some (TyposquattingRisk.mk name b m
            (if m = 2 then "medium" else if 2 < m then "low" else "high"))
        else none) = _
      rw [hmD, if_pos hle, if_pos hle, hfind]
      have hconf : (if D = 2 then "medium" else if 2 < D then "low" else "high")
          = (if D = 1 then "high" else if D = 2 then "medium" else "low") := by
        by_cases h1 : D = 1
        · simp [h1]
        · by_cases h2 : D = 2
          · simp [h2]
          · have h3 : 2 < D := by omega
            simp [h1, h2, h3]
      rw [hconf]
    · have hm2 : m = effThreshold threshold + 1 := by
        rw [hm, Nat.min_eq_left (by omega)]
      show (if m ≤ effThreshold threshold then
          some (TyposquattingRisk.mk name b m
            (if m = 2 then "medium" else if 2 < m then "low" else "high"))
        else none) = _
      rw [if_neg (by omega), if_neg hle]

/-! ## requirements.txt parser (audit/python_parser.go, ParseRequirementsTxt)

Lines are processed on their character lists.  The anchored Go pattern
matching a requirement line is deterministic maximal munch, because its
three character classes and the whitespace class are pairwise disjoint:
the name run, an optional whitespace run, the operator run, another
optional whitespace run, and a version tail whose first character is a
digit, dot, or star. -/

/-- Character class of the regex group `[a-zA-Z0-9\-_\.]`. -/
def nameChar (c : Char) : Bool :=
  (65 ≤ c.toNat && c.toNat ≤ 90) || (97 ≤ c.toNat && c.toNat ≤ 122) ||
  (48 ≤ c.toNat && c.toNat ≤ 57) || c == '-' || c == '_' || c == '.'

/-- Character class of the regex group `[=<>~!]`. -/
def opChar (c : Char) : Bool :=
  c == '=' || c == '<' || c == '>' || c == '~' || c == '!'

/-- First-character class of the regex group `[0-9\.\*]`. -/
def verStartChar (c : Char) : Bool :=
  (48 ≤ c.toNat && c.toNat ≤ 57) || c == '.' || c == '*'

/-- The whitespace class matched by `\s` in the Go pattern. -/
def wsChar (c : Char) : Bool :=
  c == '\t' || c == '\n' || c == '\x0c' || c == '\r' || c == ' '

/-- The whitespace trimmed by `strings.TrimSpace` on ASCII input. -/
def trimSpaceChar (c : Char) : Bool :=
  c == ' ' || c == '\t' || c == '\n' || c == '\x0b' || c == '\x0c' || c == '\r'

def trimChars (cs : List Char) : List Char :=
  ((cs.dropWhile trimSpaceChar).reverse.dropWhile trimSpaceChar).reverse

def startsWithChars : List Char → List Char → Bool
  | [], _ => true
  | _ :: _, [] => false
  | p :: ps, c :: cs => p == c && startsWithChars ps cs

def hasSubChars (pat : List Char) : List Char → Bool
  | [] => pat.isEmpty
  | c :: cs => startsWithChars pat (c :: cs) || hasSubChars pat cs

/-- Deterministic reading of the anchored pattern
`^([a-zA-Z0-9\-_\.]+)\s*([=<>~!]+)\s*([0-9\.\*]+.*)$`: maximal runs of
the three disjoint classes with optional whitespace between them; the
third group is the whole remainder, which must start with a digit, dot,
or star. -/
def matchRequirementLine (cs : List Char) : Option (List Char × List Char × List Char) :=
  let nm := cs.takeWhile nameChar
  let r1 := cs.dropWhile nameChar
  if nm.isEmpty then none
  else
    let r2 := r1.dropWhile wsChar
    let op := r2.takeWhile opChar
    let r3 := r2.dropWhile opChar
    if op.isEmpty then none
    else
      match r3.dropWhile wsChar with
      | [] => none
      | v :: rest => if verStartChar v then some (nm, op, v :: rest) else none

/-- Embedding of the per-line logic of `ParseRequirementsTxt`: trim, skip
blank/comment/include/editable/URL lines, then match the requirement
pattern (keeping the version only for the `==` operator) and finally
accept a bare all-name-class line with an empty version. -/
def parseRequirementLine (raw : String) : Option (String × String) :=
  let line := trimChars raw.data
  if line.isEmpty then none
  else if startsWithChars ['#'] line then none
  else if startsWithChars ['-', 'r', ' '] line then none
  else if startsWithChars
      ['-', '-', 'r', 'e', 'q', 'u', 'i', 'r', 'e', 'm', 'e', 'n', 't'] line then none
  else if startsWithChars ['-', 'e', ' '] line then none
  else if hasSubChars [':', '/', '/'] line then none
  else
    match matchRequirementLine line with
    | some (nm, op, ver) =>
        if op = ['=', '='] then some (String.mk (trimChars nm), String.mk (trimChars ver))
        else some (String.mk (trimChars nm), "")
    | none =>
        if !line.isEmpty && line.all nameChar then some (String.mk line, "") else none

/-- Newline splitting of the file content, standing for the line loop of
`bufio.Scanner` (a trailing empty segment is blank and never parsed, so
it yields no package either way). -/
def splitLines : List Char → List (List Char)
  | [] => [[]]
  | c :: rest =>
      let r := splitLines rest
      if c = '\n' then [] :: r
      else
        match r with
        | [] => [[c]]
        | l :: ls => (c :: l) :: ls

/-- Embedding of `ParseRequirementsTxt` over the file content: process
the lines in order, recording 1-based line numbers. -/
def parseRequirementsTxt (content : String) : List PythonPackage :=
  (splitLines content.data).enum.filterMap fun p =>
    match parseRequirementLine (String.mk p.2) with
    | some nv => some ⟨nv.1, nv.2, p.1 + 1⟩
    | none => none

theorem ws_not_name (c : Char) (h : wsChar c = true) : nameChar c = false := by
  simp only [wsChar, Bool.or_eq_true, beq_iff_eq] at h
  rcases h with (((h | h) | h) | h) | h <;> subst h <;> decide

theorem op_not_name (c : Char) (h : opChar c = true) : nameChar c = false := by
  simp only [opChar, Bool.or_eq_true, beq_iff_eq] at h
  rcases h with (((h | h) | h) | h) | h <;> subst h <;> decide

theorem op_not_ws (c : Char) (h : opChar c = true) : wsChar c = false := by
  simp only [opChar, Bool.or_eq_true, beq_iff_eq] at h
  rcases h with (((h | h) | h) | h) | h <;> subst h <;> decide

theorem ws_not_op (c : Char) (h : wsChar c = true) : opChar c = false := by
  simp only [wsChar, Bool.or_eq_true, beq_iff_eq] at h
  rcases h with (((h | h) | h) | h) | h <;> subst h <;> decide

theorem verStart_not_op (c : Char) (h : verStartChar c = true) : opChar c = false := by
  simp only [verStartChar, Bool.or_eq_true, Bool.and_eq_true, beq_iff_eq,
    decide_eq_true_eq] at h
  rcases h with (h | h) | h
  · simp only [opChar, Bool.or_eq_false_iff, beq_eq_false_iff_ne]
    refine ⟨⟨⟨⟨?_, ?_⟩, ?_⟩, ?_⟩, ?_⟩ <;>
      (intro he; subst he; revert h; decide)
  · subst h; decide
  · subst h; decide

theorem verStart_not_ws (c : Char) (h : verStartChar c = true) : wsChar c = false := by
  simp only [verStartChar, Bool.or_eq_true, Bool.and_eq_true, beq_iff_eq,
    decide_eq_true_eq] at h
  rcases h with (h | h) | h
  · simp only [wsChar, Bool.or_eq_false_iff, beq_eq_false_iff_ne]
    refine ⟨⟨⟨⟨?_, ?_⟩, ?_⟩, ?_⟩, ?_⟩ <;>
      (intro he; subst he; revert h; decide)
  · subst h; decide
  · subst h; decide

theorem name_not_trimws (c : Char) (h : nameChar c = true) : trimSpaceChar c = false := by
  simp only [nameChar, Bool.or_eq_true, Bool.and_eq_true, beq_iff_eq,
    decide_eq_true_eq] at h
  rcases h with ((((h | h) | h) | h) | h) | h
  · simp only [trimSpaceChar, Bool.or_eq_false_iff, beq_eq_false_iff_ne]
    refine ⟨⟨⟨⟨⟨?_, ?_⟩, ?_⟩, ?_⟩, ?_⟩, ?_⟩ <;>
      (intro he; subst he; revert h; decide)
  · simp only [trimSpaceChar, Bool.or_eq_false_iff, beq_eq_false_iff_ne]
    refine ⟨⟨⟨⟨⟨?_, ?_⟩, ?_⟩, ?_⟩, ?_⟩, ?_⟩ <;>
      (intro he; subst he; revert h; decide)
  · simp only [trimSpaceChar, Bool.or_eq_false_iff, beq_eq_false_iff_ne]
    refine ⟨⟨⟨⟨⟨?_, ?_⟩, ?_⟩, ?_⟩, ?_⟩, ?_⟩ <;>
      (intro he; subst he; revert h; decide)
  · subst h; decide
  · subst h; decide
  · subst h; decide

theorem takeWhile_munch (p : Char → Bool) :
    ∀ (l r : List Char), l.all p = true →
      (∀ c rest, r = c :: rest → p c = false) →
      (l ++ r).takeWhile p = l ∧ (l ++ r).dropWhile p = r := by
  intro l
  induction l with
  | nil =>
    intro r _ hr
    cases r with
    | nil => exact ⟨rfl, rfl⟩
    | cons c cs =>
      simp only [List.nil_append, List.takeWhile_cons, List.dropWhile_cons, hr c cs rfl]
      exact ⟨rfl, rfl⟩
  | cons a l ih =>
    intro r hall hr
    simp only [List.all_cons, Bool.and_eq_true] at hall
    have := ih r hall.2 hr
    simp only [List.cons_append, List.takeWhile_cons, List.dropWhile_cons, hall.1]
    simp [this.1, this.2]

theorem dropWhile_eq_self_of (p : Char → Bool) (l : List Char)
    (h : ∀ c rest, l = c :: rest → p c = false) : l.dropWhile p = l := by
  cases l with
  | nil => rfl
  | cons c cs => simp [List.dropWhile_cons, h c cs rfl]

theorem trimChars_id (l : List Char) (h : ∀ c ∈ l, trimSpaceChar c = false) :
    trimChars l = l := by
  unfold trimChars
  rw [dropWhile_eq_self_of _ l (fun c rest hc => h c (by rw [hc]; simp))]
  rw [dropWhile_eq_self_of _ l.reverse
    (fun c rest hc => h c (by
      have : c ∈ l.reverse := by rw [hc]; simp
      simpa using this))]
  exact List.reverse_reverse l

theorem startsWith_all_false (pat : List Char) (c : Char)
    (hc : c ∈ pat) (hcn : nameChar c = false) :
    ∀ l : List Char, l.all nameChar = true → startsWithChars pat l = false := by
  induction pat with
  | nil => cases hc
  | cons p ps ih =>
    intro l hall
    cases l with
    | nil => rfl
    | cons a as =>
      simp only [List.all_cons, Bool.and_eq_true] at hall
      simp only [startsWithChars]
      rcases List.mem_cons.mp hc with hcp | hcp
      · subst hcp
        have hpa : (c == a) = false := by
          by_cases he : c = a
          · subst he
            rw [hall.1] at hcn
            cases hcn
          · simp [he]
        simp [hpa]
      · by_cases hpa : p = a
        · simp [hpa, ih hcp as hall.2]
        · simp [hpa]

theorem hasSub_all_false (pat : List Char) (c : Char)
    (hc : c ∈ pat) (hcn : nameChar c = false) :
    ∀ l : List Char, l.all nameChar = true → hasSubChars pat l = false := by
  intro l
  induction l with
  | nil =>
    intro _
    simp only [hasSubChars]
    cases pat with
    | nil => cases hc
    | cons p ps => rfl
  | cons a as ih =>
    intro hall
    simp only [hasSubChars]
    rw [startsWith_all_false pat c hc hcn (a :: as) hall,
      ih (by simp only [List.all_cons, Bool.and_eq_true] at hall; exact hall.2)]
    rfl

theorem parseRequirementLine_op (nm sp1 op sp2 ver : List Char)
    (hnm : nm ≠ []) (hnmall : nm.all nameChar = true)
    (hsp1 : sp1.all wsChar = true) (hsp2 : sp2.all wsChar = true)
    (hop : op ≠ []) (hopall : op.all opChar = true)
    (hver : ver ≠ []) (hverhead : ∀ c rest, ver = c :: rest → verStartChar c = true)
    (hvertrim : trimChars ver = ver)
    (hs3 : startsWithChars
      ['-', '-', 'r', 'e', 'q', 'u', 'i', 'r', 'e', 'm', 'e', 'n', 't']
      (nm ++ sp1 ++ op ++ sp2 ++ ver) = false)
    (hs5 : hasSubChars [':', '/', '/'] (nm ++ sp1 ++ op ++ sp2 ++ ver) = false)
    (htrim : trimChars (nm ++ sp1 ++ op ++ sp2 ++ ver) = nm ++ sp1 ++ op ++ sp2 ++ ver)
    (hs1 : startsWithChars ['#'] (nm ++ sp1 ++ op ++ sp2 ++ ver) = false)
    (hs2 : startsWithChars ['-', 'r', ' '] (nm ++ sp1 ++ op ++ sp2 ++ ver) = false)
    (hs4 : startsWithChars ['-', 'e', ' '] (nm ++ sp1 ++ op ++ sp2 ++ ver) = false) :
    parseRequirementLine (String.mk (nm ++ sp1 ++ op ++ sp2 ++ ver))
      = some (String.mk nm, if op = ['=', '='] then String.mk ver else "") := by
  obtain ⟨n0, nm', rfl⟩ := List.exists_cons_of_ne_nil hnm
  obtain ⟨o0, op', rfl⟩ := List.exists_cons_of_ne_nil hop
  obtain ⟨v0, ver', rfl⟩ := List.exists_cons_of_ne_nil hver
  have hv0 : verStartChar v0 = true := hverhead v0 ver' rfl
  have ho0 : opChar o0 = true := by
    simp only [List.all_cons, Bool.and_eq_true] at hopall
    exact hopall.1
  have hr1 : ∀ c rest, (sp1 ++ ((o0 :: op') ++ (sp2 ++ (v0 :: ver')))) = c :: rest →
      nameChar c = false := by
    intro c rest hc
    cases sp1 with
    | nil =>
      simp only [List.nil_append, List.cons_append] at hc
      injection hc with h1 _
      rw [← h1]
      exact op_not_name _ ho0
    | cons s ss =>
      simp only [List.cons_append] at hc
      injection hc with h1 _
      rw [← h1]
      refine ws_not_name _ ?_
      simp only [List.all_cons, Bool.and_eq_true] at hsp1
      exact hsp1.1
  have hr2 : ∀ c rest, ((o0 :: op') ++ (sp2 ++ (v0 :: ver'))) = c :: rest →
      wsChar c = false := by
    intro c rest hc
    simp only [List.cons_append] at hc
    injection hc with h1 _
    rw [← h1]
    exact op_not_ws _ ho0
  have hr3 : ∀ c rest, (sp2 ++ (v0 :: ver')) = c :: rest → opChar c = false := by
    intro c rest hc
    cases sp2 with
    | nil =>
      simp only [List.nil_append] at hc
      injection hc with h1 _
      rw [← h1]
      exact verStart_not_op _ hv0
    | cons s ss =>
      simp only [List.cons_append] at hc
      injection hc with h1 _
      rw [← h1]
      refine ws_not_op _ ?_
      simp only [List.all_cons, Bool.and_eq_true] at hsp2
      exact hsp2.1
  have hr4 : ∀ c rest, (v0 :: ver') = c :: rest → wsChar c = false := by
    intro c rest hc
    injection hc with h1 _
    rw [← h1]
    exact verStart_not_ws _ hv0
  have hm1 := takeWhile_munch nameChar (n0 :: nm')
    (sp1 ++ ((o0 :: op') ++ (sp2 ++ (v0 :: ver')))) hnmall hr1
  have hm2 := takeWhile_munch wsChar sp1
    ((o0 :: op') ++ (sp2 ++ (v0 :: ver'))) hsp1 hr2
  have hm3 := takeWhile_munch opChar (o0 :: op') (sp2 ++ (v0 :: ver')) hopall hr3
  have hm4 := takeWhile_munch wsChar sp2 (v0 :: ver') hsp2 hr4
  have hmatch : matchRequirementLine
      ((n0 :: nm') ++ (sp1 ++ ((o0 :: op') ++ (sp2 ++ (v0 :: ver')))))
      = some (n0 :: nm', o0 :: op', v0 :: ver') := by
    simp only [matchRequirementLine]
    rw [hm1.1, hm1.2, hm2.2, hm3.1, hm3.2, hm4.2]
    simp only [List.isEmpty_cons, Bool.false_eq_true, if_false]
    rw [if_pos hv0]
  have htrimnm : trimChars (n0 :: nm') = n0 :: nm' :=
    trimChars_id _ (fun c hc =>
      name_not_trimws c (by
        rw [List.all_eq_true] at hnmall
        exact hnmall c hc))
  simp only [List.cons_append, List.append_assoc] at hs1 hs2 hs3 hs4 hs5 htrim hmatch
  simp [parseRequirementLine, htrim, hs1, hs2, hs3, hs4, hs5, hmatch,
    htrimnm, hvertrim]
  by_cases hop2 : o0 = '=' ∧ op' = ['='] <;> simp [hop2]

theorem parseRequirementLine_bare (l : List Char) (hne : l ≠ [])
    (hall : l.all nameChar = true)
    (hs3 : startsWithChars
      ['-', '-', 'r', 'e', 'q', 'u', 'i', 'r', 'e', 'm', 'e', 'n', 't'] l = false) :
    parseRequirementLine (String.mk l) = some (String.mk l, "") := by
  have htrim : trimChars l = l :=
    trimChars_id _ (fun c hc =>
      name_not_trimws c (by
        rw [List.all_eq_true] at hall
        exact hall c hc))
  have h1 : startsWithChars ['#'] l = false :=
    startsWith_all_false ['#'] '#' (by decide) (by decide) l hall
  have h2 : startsWithChars ['-', 'r', ' '] l = false :=
    startsWith_all_false ['-', 'r', ' '] ' ' (by decide) (by decide) l hall
  have h4 : startsWithChars ['-', 'e', ' '] l = false :=
    startsWith_all_false ['-', 'e', ' '] ' ' (by decide) (by decide) l hall
  have h5 : hasSubChars [':', '/', '/'] l = false :=
    hasSub_all_false [':', '/', '/'] ':' (by decide) (by decide) l hall
  have hmnone : matchRequirementLine l = none := by
    have hm := takeWhile_munch nameChar l [] hall (fun c rest hc => nomatch hc)
    rw [List.append_nil] at hm
    simp only [matchRequirementLine]
    rw [hm.1, hm.2]
    obtain ⟨c0, l', rfl⟩ := List.exists_cons_of_ne_nil hne
    simp [List.isEmpty_cons]
  obtain ⟨c0, l', rfl⟩ := List.exists_cons_of_ne_nil hne
  simp [parseRequirementLine, htrim, h1, h2, hs3, h4, h5, hmnone, hall]

/-- C5: the requirements parser skips blank, comment, include, editable,
and URL lines; a `name <op> version` line keeps the version exactly when
the operator is `==` and otherwise yields an empty version; a bare
all-name-class line yields an empty version; and the spec's example
input parses to exactly flask 2.0.1 and requests with no version. -/
theorem parseRequirements_policy :
    parseRequirementsTxt "flask==2.0.1\n# comment\n-e .\nrequests>=2.0\n"
      = [⟨"flask", "2.0.1", 1⟩, ⟨"requests", "", 4⟩]
    ∧ (∀ raw, trimChars raw.data = [] → parseRequirementLine raw = none)
    ∧ (∀ raw, startsWithChars ['#'] (trimChars raw.data) = true →
        parseRequirementLine raw = none)
    ∧ (∀ raw, startsWithChars ['-', 'r', ' '] (trimChars raw.data) = true →
        parseRequirementLine raw = none)
    ∧ (∀ raw, startsWithChars
        ['-', '-', 'r', 'e', 'q', 'u', 'i', 'r', 'e', 'm', 'e', 'n', 't']
        (trimChars raw.data) = true → parseRequirementLine raw = none)
    ∧ (∀ raw, startsWithChars ['-', 'e', ' '] (trimChars raw.data) = true →
        parseRequirementLine raw = none)
    ∧ (∀ raw, hasSubChars [':', '/', '/'] (trimChars raw.data) = true →
        parseRequirementLine raw = none)
    ∧ (∀ nm sp1 op sp2 ver : List Char, nm ≠ [] → nm.all nameChar = true →
        sp1.all wsChar = true → sp2.all wsChar = true →
        op ≠ [] → op.all opChar = true →
        ver ≠ [] → (∀ c rest, ver = c :: rest → verStartChar c = true) →
        trimChars ver = ver →
        startsWithChars ['-', '-', 'r', 'e', 'q', 'u', 'i', 'r', 'e', 'm', 'e', 'n', 't']
          (nm ++ sp1 ++ op ++ sp2 ++ ver) = false →
        hasSubChars [':', '/', '/'] (nm ++ sp1 ++ op ++ sp2 ++ ver) = false →
        trimChars (nm ++ sp1 ++ op ++ sp2 ++ ver) = nm ++ sp1 ++ op ++ sp2 ++ ver →
        startsWithChars ['#'] (nm ++ sp1 ++ op ++ sp2 ++ ver) = false →
        startsWithChars ['-', 'r', ' '] (nm ++ sp1 ++ op ++ sp2 ++ ver) = false →
        startsWithChars ['-', 'e', ' '] (nm ++ sp1 ++ op ++ sp2 ++ ver) = false →
        parseRequirementLine (String.mk (nm ++ sp1 ++ op ++ sp2 ++ ver))
          = some (String.mk nm, if op = ['=', '='] then String.mk ver else ""))
    ∧ (∀ l : List Char, l ≠ [] → l.all nameChar = true →
        startsWithChars ['-', '-', 'r', 'e', 'q', 'u', 'i', 'r', 'e', 'm', 'e', 'n', 't']
          l = false →
        parseRequirementLine (String.mk l) = some (String.mk l, "")) := by
  refine ⟨by decide, ?_, ?_, ?_, ?_, ?_, ?_, parseRequirementLine_op,
    parseRequirementLine_bare⟩
  · intro raw h
    simp [parseRequirementLine, h]
  · intro raw h
    simp [parseRequirementLine, h]
  · intro raw h
    simp [parseRequirementLine, h]
  · intro raw h
    simp [parseRequirementLine, h]
  · intro raw h
    simp [parseRequirementLine, h]
  · intro raw h
    simp [parseRequirementLine, h]

/-- Witness for C5 at concrete lines. -/
theorem parseRequirements_policy_witness :
    parseRequirementLine "   " = none
    ∧ parseRequirementLine "# comment" = none
    ∧ parseRequirementLine "-r base.txt" = none
    ∧ parseRequirementLine "--requirement base.txt" = none
    ∧ parseRequirementLine "-e ." = none
    ∧ parseRequirementLine "https://example.com/p.whl" = none
    ∧ parseRequirementLine
        (String.mk (['f', 'l', 'a', 's', 'k'] ++ [] ++ ['=', '='] ++ [] ++ ['2', '.', '0']))
      = some ("flask", "2.0")
    ∧ parseRequirementLine (String.mk ['n', 'u', 'm', 'p', 'y']) = some ("numpy", "") := by
  refine ⟨parseRequirements_policy.2.1 "   " (by decide),
    parseRequirements_policy.2.2.1 "# comment" (by decide),
    parseRequirements_policy.2.2.2.1 "-r base.txt" (by decide),
    parseRequirements_policy.2.2.2.2.1 "--requirement base.txt" (by decide),
    parseRequirements_policy.2.2.2.2.2.1 "-e ." (by decide),
    parseRequirements_policy.2.2.2.2.2.2.1 "https://example.com/p.whl" (by decide),
    ?_, ?_⟩
  · have h := parseRequirements_policy.2.2.2.2.2.2.2.1
      ['f', 'l', 'a', 's', 'k'] [] ['=', '='] [] ['2', '.', '0']
      (by decide) (by decide) (by decide) (by decide) (by decide) (by decide)
      (by decide) (by intro c rest h; cases h; decide) (by decide) (by decide)
      (by decide) (by decide) (by decide) (by decide) (by decide)
    simpa using h
  · have h := parseRequirements_policy.2.2.2.2.2.2.2.2
      ['n', 'u', 'm', 'p', 'y'] (by decide) (by decide) (by decide)
    simpa using h

/-! ## Directory scanner (scanner/scanner.go)

The sources here carry an earlier npm-only revision of the scanner,
while its callers (main.go) and tests reference the current one with the
full manifest table and noise-set pruning; the walk is therefore
modelled from the spec.  A directory tree is a rose tree of named
entries, a path is its component list from the scan root, and the noise
set is a parameter (the spec fixes its categories, not its exact
contents: dependency caches such as node_modules, Python virtual
environments, vendor and build-output directories). -/

inductive FsEntry where
  | file (name : String)
  | dir (name : String) (children : List FsEntry)
deriving Repr

/-- Modelled from the spec: the closed exact-basename manifest table
(npm, Python, Go, and Maven families). -/
def manifestFileNames : List String :=
  ["package.json", "package-lock.json", "yarn.lock", "pnpm-lock.yaml",
   "requirements.txt", "Pipfile", "Pipfile.lock", "poetry.lock", "pyproject.toml",
   "go.mod", "go.sum", "pom.xml"]

structure ScanDetected where
  path : List String
  kind : String
deriving DecidableEq, Repr

mutual

/-- Modelled from the spec: the depth-first walk — a directory whose
name is in the noise set is pruned whole; a file is compared against the
manifest table by exact string equality and, on match, appended in
discovery order with the matched table entry as its kind. -/
def scanEntry (noise : List String) (base : List String) : FsEntry → List ScanDetected
  | .file name =>
      match manifestFileNames.find? (fun m => m == name) with
      | some m => [⟨base ++ [name], m⟩]
      | none => []
  | .dir name children =>
      if name ∈ noise then []
      else scanChildren noise (base ++ [name]) children

def scanChildren (noise : List String) (base : List String) : List FsEntry → List ScanDetected
  | [] => []
  | e :: es => scanEntry noise base e ++ scanChildren noise base es

end

mutual

/-- Modelled from the spec: the same walk with the name matching
removed — it enumerates every file the scan visits, and is the reference
against which the manifest filter is stated. -/
def visitEntry (noise : List String) (base : List String) : FsEntry → List (List String × String)
  | .file name => [(base ++ [name], name)]
  | .dir name children =>
      if name ∈ noise then []
      else visitChildren noise (base ++ [name]) children

def visitChildren (noise : List String) (base : List String) :
    List FsEntry → List (List String × String)
  | [] => []
  | e :: es => visitEntry noise base e ++ visitChildren noise base es

end

theorem find?_beq_eq (name : String) : ∀ l : List String,
    (l.find? (fun m => m == name) = some name ∧ name ∈ l)
    ∨ (l.find? (fun m => m == name) = none ∧ name ∉ l) := by
  intro l
  induction l with
  | nil => exact Or.inr ⟨rfl, by simp⟩
  | cons m ms ih =>
    by_cases hm : m = name
    · subst hm
      left
      constructor
      · rw [List.find?_cons_of_pos ms (by simp)]
      · simp
    · have hne : ((fun x => x == name) m) = false := by simp [hm]
      rw [show List.find? (fun x => x == name) (m :: ms)
          = List.find? (fun x => x == name) ms from List.find?_cons_of_neg ms (by simp [hm])]
      rcases ih with ⟨h1, h2⟩ | ⟨h1, h2⟩
      · exact Or.inl ⟨h1, by simp [h2]⟩
      · exact Or.inr ⟨h1, by simp [h2]; exact fun he => hm he.symm⟩

mutual

theorem scanEntry_filter (noise base : List String) :
    ∀ e, scanEntry noise base e
      = (visitEntry noise base e).filterMap (fun pr =>
          if pr.2 ∈ manifestFileNames then some ⟨pr.1, pr.2⟩ else none)
  | .file name => by
    simp only [scanEntry, visitEntry, List.filterMap_cons, List.filterMap_nil]
    rcases find?_beq_eq name manifestFileNames with ⟨h1, h2⟩ | ⟨h1, h2⟩
    · rw [h1, if_pos h2]
    · rw [h1, if_neg h2]
  | .dir name children => by
    simp only [scanEntry, visitEntry]
    by_cases hn : name ∈ noise
    · rw [if_pos hn, if_pos hn]
      rfl
    · rw [if_neg hn, if_neg hn]
      exact scanChildren_filter noise (base ++ [name]) children

theorem scanChildren_filter (noise base : List String) :
    ∀ es, scanChildren noise base es
      = (visitChildren noise base es).filterMap (fun pr =>
          if pr.2 ∈ manifestFileNames then some ⟨pr.1, pr.2⟩ else none)
  | [] => rfl
  | e :: es => by
    simp only [scanChildren, visitChildren, List.filterMap_append]
    rw [scanEntry_filter noise base e, scanChildren_filter noise base es]

end

/-- C3 (spec-modelled): a scanned file is detected and classified as a
manifest exactly when its basename equals — character for character —
one of the twelve names of the closed manifest table, and matches are
appended in discovery order: the scan is the visit-order file
enumeration filtered by exact membership in the table. -/
theorem scan_manifest_match :
    manifestFileNames
      = ["package.json", "package-lock.json", "yarn.lock", "pnpm-lock.yaml",
         "requirements.txt", "Pipfile", "Pipfile.lock", "poetry.lock", "pyproject.toml",
         "go.mod", "go.sum", "pom.xml"]
    ∧ (∀ noise base e, scanEntry noise base e
        = (visitEntry noise base e).filterMap (fun pr =>
            if pr.2 ∈ manifestFileNames then some ⟨pr.1, pr.2⟩ else none)) :=
  ⟨rfl, fun noise base e => scanEntry_filter noise base e⟩

mutual

theorem scanEntry_prune (noise : List String) :
    ∀ e base df, (∀ d ∈ base, d ∉ noise) → df ∈ scanEntry noise base e →
      ∀ d ∈ df.path.dropLast, d ∉ noise
  | .file name => by
    intro base df hbase hdf
    simp only [scanEntry] at hdf
    rcases hfind : manifestFileNames.find? (fun m => m == name) with _ | m
    · rw [hfind] at hdf
      cases hdf
    · rw [hfind] at hdf
      simp only [List.mem_singleton] at hdf
      subst hdf
      intro d hd
      simp only [List.dropLast_concat] at hd
      exact hbase d hd
  | .dir name children => by
    intro base df hbase hdf
    simp only [scanEntry] at hdf
    by_cases hn : name ∈ noise
    · rw [if_pos hn] at hdf
      cases hdf
    · rw [if_neg hn] at hdf
      refine scanChildren_prune noise children (base ++ [name]) df ?_ hdf
      intro d hd
      rcases List.mem_append.mp hd with hd | hd
      · exact hbase d hd
      · simp only [List.mem_singleton] at hd
        subst hd
        exact hn

theorem scanChildren_prune (noise : List String) :
    ∀ es base df, (∀ d ∈ base, d ∉ noise) → df ∈ scanChildren noise base es →
      ∀ d ∈ df.path.dropLast, d ∉ noise
  | [] => by
    intro base df _ hdf
    cases hdf
  | e :: es => by
    intro base df hbase hdf
    simp only [scanChildren] at hdf
    rcases List.mem_append.mp hdf with hdf | hdf
    · exact scanEntry_prune noise e base df hbase hdf
    · exact scanChildren_prune noise es base df hbase hdf

end

/-- Example tree of the spec: a manifest at the root, one in an ordinary
subdirectory, and one inside a pruned noise directory. -/
def exampleTree : FsEntry :=
  .dir "root"
    [.file "package.json",
     .dir "sub" [.file "package.json"],
     .dir "node_modules" [.file "package.json"]]

/-- C4 (spec-modelled): a noise-named directory's whole subtree is
pruned, so no detected file path passes through a noise directory; and
the spec's example tree yields exactly the two entries outside the
pruned directory. -/
theorem scan_prunes_noise_subtrees :
    (∀ (noise : List String) (e : FsEntry) (df : ScanDetected),
        df ∈ scanEntry noise [] e → ∀ d ∈ df.path.dropLast, d ∉ noise)
    ∧ scanEntry ["node_modules"] [] exampleTree
        = [⟨["root", "package.json"], "package.json"⟩,
           ⟨["root", "sub", "package.json"], "package.json"⟩]
    ∧ (scanEntry ["node_modules"] [] exampleTree).length = 2 := by
  refine ⟨?_, ?_, ?_⟩
  · intro noise e df hdf
    exact scanEntry_prune noise e [] df (by simp) hdf
  · simp [exampleTree, scanEntry, scanChildren, manifestFileNames]
  · simp [exampleTree, scanEntry, scanChildren, manifestFileNames]

/-- Witness for C4 at the example tree: the root manifest is detected
and its directory components avoid the noise set. -/
theorem scan_prunes_noise_subtrees_witness :
    ∀ d ∈ (ScanDetected.mk ["root", "package.json"] "package.json").path.dropLast,
      d ∉ ["node_modules"] := by
  refine scan_prunes_noise_subtrees.1 ["node_modules"] exampleTree
    ⟨["root", "package.json"], "package.json"⟩ ?_
  rw [scan_prunes_noise_subtrees.2.1]
  simp

end Snoop
